import Mathlib

/-!
Verification of the BoarBot weighted-draw engine (`BoarUtils.ts`) and the
reconciling global data store (`DataHandlers.ts`).

The TypeScript source is shallowly embedded: numbers that carry probabilities
or weights become `ℚ`, integer counters become `ℤ` or `ℕ`, JS objects used as
keyed maps become association lists, and every call to `Math.random()` becomes
an explicit rational parameter in `[0,1)`.  Operations that would throw in the
source (for example `reduce` on an empty array, or indexing past the end of
`config.rarityConfigs`) are modelled with `Option`, `none` standing for the
thrown exception.
-/

namespace BoarBot

/-- Flags of one drawable item (`BoarItemConfigs[boarID]`): `blacklisted`
items are never drawable, `isSB` items are restricted to SB servers. -/
structure BoarFlags where
  blacklisted : Bool
  isSB : Bool
deriving DecidableEq

/-- One rarity tier from `config.rarityConfigs`: its weight, whether it is in
the base daily draw pool, and its member boar IDs. -/
structure RarityConfig where
  weight : ℚ
  fromDaily : Bool
  boars : List String

/-- Per-guild data; the draw engine only reads `isSBServer`. -/
structure GuildData where
  isSBServer : Bool
deriving DecidableEq

/-- Numeric constants from `config.numberConfig`. -/
structure NumberConfig where
  oneDay : ℤ
  miracleIncreaseMax : ℤ

/-- The slice of `BotConfig` consumed by the embedded code: rarity tiers, the
per-item flags, numeric constants, and the configured quest ID pool. -/
structure BotConfig where
  rarityConfigs : List RarityConfig
  boarItemConfigs : String → BoarFlags
  numberConfig : NumberConfig
  questKeys : List String

/-- Evaluation of the optional-chain `guildData?.isSBServer` as a boolean:
`undefined` is falsy, so an absent guild behaves as a non-SB server. -/
def guildSBServer : Option GuildData → Bool
  | some g => g.isSBServer
  | none => false

/-- The filter loop of `BoarUtils.findValid`: keeps a boar ID unless it is
blacklisted or it is SB-only while the guild is not an SB server. -/
def validBoars (config : BotConfig) (guildData : Option GuildData) (rarity : RarityConfig) :
    List String :=
  rarity.boars.filter (fun boarID =>
    let flags := config.boarItemConfigs boarID
    !(flags.blacklisted || (!guildSBServer guildData && flags.isSB)))

/-- `BoarUtils.findValid`: picks a random valid boar of the given rarity, the
empty string when no boar of the rarity is valid, and `none` models the
TypeScript crash on an out-of-range rarity index.  `randomBoar` is the value
of the `Math.random()` call. -/
def findValid (rarityIndex : ℕ) (guildData : Option GuildData) (config : BotConfig)
    (randomBoar : ℚ) : Option String :=
  (config.rarityConfigs[rarityIndex]?).map (fun rarity =>
    let valid := validBoars config guildData rarity
    if valid.length = 0 then ""
    else (valid[Int.toNat ⌊randomBoar * valid.length⌋]?).getD "")

/-- The `sort` call of `getRandBoars`: rarity weights sorted ascending. -/
def sortRarityWeights (rarityWeights : List (ℕ × ℚ)) : List (ℕ × ℚ) :=
  List.insertionSort (fun a b => a.2 ≤ b.2) rarityWeights

/-- The cumulative-probability map builder of `getRandBoars`: each entry keeps
its rarity index and carries `weight / weightTotal` plus the previous running
probability. -/
def cumulProbs (weightTotal : ℚ) (prevProb : ℚ) : List (ℕ × ℚ) → List (ℕ × ℚ)
  | [] => []
  | (rarityIndex, weight) :: rest =>
    (rarityIndex, weight / weightTotal + prevProb) ::
      cumulProbs weightTotal (weight / weightTotal + prevProb) rest

/-- The probability table of `getRandBoars`: weights sorted ascending, then
turned into cumulative probabilities over the weight total. -/
def probTable (rarityWeights : List (ℕ × ℚ)) : List (ℕ × ℚ) :=
  cumulProbs ((sortRarityWeights rarityWeights).map Prod.snd).sum 0
    (sortRarityWeights rarityWeights)

/-- `Math.max(...)` over a list of rationals (only applied to nonempty lists
in the source; the `[]` case is an arbitrary default). -/
def listMaxQ : List ℚ → ℚ
  | [] => 0
  | [q] => q
  | q :: r :: rest => max q (listMaxQ (r :: rest))

/-- The inner selection loop of `getRandBoars`: skip an entry while the rolled
value exceeds its probability and it is not the maximum-probability entry;
otherwise select its rarity index. -/
def pickRarity (maxProb : ℚ) (randomRarity : ℚ) : List (ℕ × ℚ) → Option ℕ
  | [] => none
  | (rarityIndex, probability) :: rest =>
    if randomRarity > probability ∧ maxProb ≠ probability then
      pickRarity maxProb randomRarity rest
    else some rarityIndex

/-- The outer draw loop of `getRandBoars`: `i` is the draw counter (selecting
which random values are consumed), the second argument the number of draws
left.  A draw whose rarity selection falls through pushes nothing; a selected
rarity out of range crashes (`none`). -/
def drawBoarsLoop (guildData : Option GuildData) (config : BotConfig)
    (probs : List (ℕ × ℚ)) (maxProb : ℚ) (randTier randBoar : ℕ → ℚ) :
    ℕ → ℕ → Option (List String)
  | _, 0 => some []
  | i, Nat.succ n =>
    match pickRarity maxProb (randTier i) probs with
    | none => drawBoarsLoop guildData config probs maxProb randTier randBoar (i + 1) n
    | some rarityIndex =>
      match findValid rarityIndex guildData config (randBoar i) with
      | none => none
      | some boarGotten =>
        (drawBoarsLoop guildData config probs maxProb randTier randBoar (i + 1) n).map
          (boarGotten :: ·)

/-- The draw count of `getRandBoars`: one base draw, plus `⌊extraVal/100⌋`
guaranteed extra draws when `extra` is set, plus one bonus draw when the bonus
roll `randBonus` is below `(extraVal % 100)/100`. -/
def numBoarsDrawn (extra : Bool) (extraVal : ℕ) (randBonus : ℚ) : ℕ :=
  if extra then
    1 + extraVal / 100 + (if randBonus < ((extraVal % 100 : ℕ) : ℚ) / 100 then 1 else 0)
  else 1

/-- `BoarUtils.getRandBoars`: `none` models the crash of `reduce` on an empty
weight map (and of indexing a missing rarity); otherwise the ordered list of
drawn boar IDs.  `randBonus` is the bonus-draw roll, `randTier i` the tier
roll of draw `i`, `randBoar i` the roll consumed by `findValid` in draw `i`. -/
def getRandBoars (guildData : Option GuildData) (rarityWeights : List (ℕ × ℚ))
    (extra : Bool) (extraVal : ℕ) (config : BotConfig)
    (randBonus : ℚ) (randTier randBoar : ℕ → ℚ) : Option (List String) :=
  if rarityWeights.isEmpty then none
  else
    drawBoarsLoop guildData config (probTable rarityWeights)
      (listMaxQ ((probTable rarityWeights).map Prod.snd)) randTier randBoar 0
      (numBoarsDrawn extra extraVal randBonus)

/-- The index loop of `BoarUtils.getBaseRarityWeights`, keyed from `i`. -/
def getBaseRarityWeightsAux : ℕ → List RarityConfig → List (ℕ × ℚ)
  | _, [] => []
  | i, rarity :: rest =>
    (i, if rarity.fromDaily then rarity.weight else 0) :: getBaseRarityWeightsAux (i + 1) rest

/-- `BoarUtils.getBaseRarityWeights`: maps each configured rarity's array
index to its weight, forced to `0` when `fromDaily` is false. -/
def getBaseRarityWeights (config : BotConfig) : List (ℕ × ℚ) :=
  getBaseRarityWeightsAux 0 config.rarityConfigs

/-- The mapping claimed by the spec for `baseWeights()`: tiers sorted by
descending weight, keyed by 1-based rank in that order, weight forced to `0`
when `fromDaily` is false.  Stated only to compare against
`getBaseRarityWeights`. -/
def specBaseRarityWeights (config : BotConfig) : List (ℕ × ℚ) :=
  getBaseRarityWeightsAux 1
    (List.insertionSort (fun a b : RarityConfig => b.weight ≤ a.weight) config.rarityConfigs)

/-- One leaderboard metric (`BoardData`): an ordered user-keyed map of
`(username, value)` entries plus the optional top-holder user ID. -/
structure BoardData where
  userData : List (String × String × ℤ)
  topUser : Option String
deriving DecidableEq

/-- The leaderboards dataset: the ten metric boards written by
`DataHandlers.updateLeaderboardData`. -/
structure LeaderboardsData where
  bucks : BoardData
  total : BoardData
  uniques : BoardData
  uniquesSB : BoardData
  streak : BoardData
  attempts : BoardData
  topAttempts : BoardData
  giftsUsed : BoardData
  multiplier : BoardData
  fastest : BoardData
deriving DecidableEq

/-- JS `delete userData[userID]`: removes the user's entry, keeping order. -/
def deleteEntry (userData : List (String × String × ℤ)) (userID : String) :
    List (String × String × ℤ) :=
  userData.filter (fun e => e.1 ≠ userID)

/-- JS `userData[userID] = [username, value]`: overwrite in place when the
key exists, append otherwise. -/
def setEntry : List (String × String × ℤ) → String → String → ℤ → List (String × String × ℤ)
  | [], userID, username, v => [(userID, username, v)]
  | e :: rest, userID, username, v =>
    if e.1 = userID then (userID, username, v) :: rest
    else e :: setEntry rest userID username v

/-- One metric update step of `updateLeaderboardData`: upsert the entry when
the computed value is positive, delete it otherwise. -/
def upsertBoard (board : BoardData) (userID username : String) (v : ℤ) : BoardData :=
  if 0 < v then { board with userData := setEntry board.userData userID username v }
  else { board with userData := deleteEntry board.userData userID }

/-- The unique-boar counter of `updateLeaderboardData`: owned boar IDs with a
positive count that are not SB-only. -/
def countUniques (config : BotConfig) (boars : List (String × ℤ)) : ℤ :=
  (boars.countP (fun b => decide (0 < b.2) && !(config.boarItemConfigs b.1).isSB) : ℤ)

/-- The SB-unique counter of `updateLeaderboardData`: owned SB-only boar IDs
with a positive count. -/
def countSBUniques (config : BotConfig) (boars : List (String × ℤ)) : ℤ :=
  (boars.countP (fun b => decide (0 < b.2) && (config.boarItemConfigs b.1).isSB) : ℤ)

/-- The miracle loop of `updateLeaderboardData`: each active stack adds
`min(⌈multiplier * 0.05⌉, miracleIncreaseMax)` to the running multiplier. -/
def applyMiracles (miracleIncreaseMax : ℤ) : ℕ → ℤ → ℤ
  | 0, multiplier => multiplier
  | Nat.succ n, multiplier =>
    applyMiracles miracleIncreaseMax n
      (multiplier + min ⌈(multiplier : ℚ) * (5 / 100)⌉ miracleIncreaseMax)

/-- The per-user profile fields read by `updateLeaderboardData` (the
`BoarUser` stats and item collection backing the ten metrics). -/
structure BoarUserProfile where
  userID : String
  username : String
  boarScore : ℤ
  totalBoars : ℤ
  boarStreak : ℤ
  multiplier : ℤ
  attempts : ℤ
  oneAttempts : ℤ
  fastestTime : ℤ
  giftNumUsed : ℤ
  miracleNumActive : ℕ
  boars : List (String × ℤ)

/-- `DataHandlers.updateLeaderboardData` without its I/O shell: recompute the
user's entry on each of the ten metric boards. -/
def updateLeaderboardData (boardsData : LeaderboardsData) (boarUser : BoarUserProfile)
    (config : BotConfig) : LeaderboardsData :=
  { boardsData with
    bucks := upsertBoard boardsData.bucks boarUser.userID boarUser.username boarUser.boarScore
    total := upsertBoard boardsData.total boarUser.userID boarUser.username boarUser.totalBoars
    uniques := upsertBoard boardsData.uniques boarUser.userID boarUser.username
      (countUniques config boarUser.boars)
    uniquesSB := upsertBoard boardsData.uniquesSB boarUser.userID boarUser.username
      (countSBUniques config boarUser.boars)
    streak := upsertBoard boardsData.streak boarUser.userID boarUser.username boarUser.boarStreak
    attempts := upsertBoard boardsData.attempts boarUser.userID boarUser.username boarUser.attempts
    topAttempts := upsertBoard boardsData.topAttempts boarUser.userID boarUser.username
      boarUser.oneAttempts
    giftsUsed := upsertBoard boardsData.giftsUsed boarUser.userID boarUser.username
      boarUser.giftNumUsed
    multiplier := upsertBoard boardsData.multiplier boarUser.userID boarUser.username
      (applyMiracles config.numberConfig.miracleIncreaseMax boarUser.miracleNumActive
        boarUser.multiplier)
    fastest := upsertBoard boardsData.fastest boarUser.userID boarUser.username
      boarUser.fastestTime }

/-- `topUser === userID ? undefined : topUser` on one board. -/
def clearTopUser (board : BoardData) (userID : String) : BoardData :=
  { board with topUser := if board.topUser = some userID then none else board.topUser }

/-- `DataHandlers.removeLeaderboardUser` without its I/O shell: the source
deletes the user's entry and clears `topUser` on eight of the ten boards —
`uniquesSB` and `fastest` are not touched. -/
def removeLeaderboardUser (boardsData : LeaderboardsData) (userID : String) :
    LeaderboardsData :=
  { boardsData with
    bucks := clearTopUser
      { boardsData.bucks with userData := deleteEntry boardsData.bucks.userData userID } userID
    total := clearTopUser
      { boardsData.total with userData := deleteEntry boardsData.total.userData userID } userID
    uniques := clearTopUser
      { boardsData.uniques with userData := deleteEntry boardsData.uniques.userData userID } userID
    streak := clearTopUser
      { boardsData.streak with userData := deleteEntry boardsData.streak.userData userID } userID
    attempts := clearTopUser
      { boardsData.attempts with
        userData := deleteEntry boardsData.attempts.userData userID } userID
    topAttempts := clearTopUser
      { boardsData.topAttempts with
        userData := deleteEntry boardsData.topAttempts.userData userID } userID
    giftsUsed := clearTopUser
      { boardsData.giftsUsed with
        userData := deleteEntry boardsData.giftsUsed.userData userID } userID
    multiplier := clearTopUser
      { boardsData.multiplier with
        userData := deleteEntry boardsData.multiplier.userData userID } userID }

/-- The C8 invariant on one board: every stored entry's value is positive. -/
def boardAllPos (board : BoardData) : Prop := ∀ e ∈ board.userData, 0 < e.2.2

/-- The C8 invariant on the whole leaderboards dataset. -/
def leaderboardsAllPos (b : LeaderboardsData) : Prop :=
  boardAllPos b.bucks ∧ boardAllPos b.total ∧ boardAllPos b.uniques ∧
  boardAllPos b.uniquesSB ∧ boardAllPos b.streak ∧ boardAllPos b.attempts ∧
  boardAllPos b.topAttempts ∧ boardAllPos b.giftsUsed ∧ boardAllPos b.multiplier ∧
  boardAllPos b.fastest

/-- The load step of `getGlobalData(Leaderboards)` as seen by its save
events: a stored document is returned as is; a missing document is replaced
by the freshly synthesized `fresh` default, which is persisted immediately.
The second component is the list of datasets written so far. -/
def loadLeaderboards (stored : Option LeaderboardsData) (fresh : LeaderboardsData) :
    LeaderboardsData × List LeaderboardsData :=
  match stored with
  | some b => (b, [])
  | none => (fresh, [fresh])

/-- The full save trace of `updateLeaderboardData`: the saves performed by
the load step followed by the single save of the recomputed dataset. -/
def updateLeaderboardSaves (stored : Option LeaderboardsData) (fresh : LeaderboardsData)
    (boarUser : BoarUserProfile) (config : BotConfig) : List LeaderboardsData :=
  (loadLeaderboards stored fresh).2 ++
    [updateLeaderboardData (loadLeaderboards stored fresh).1 boarUser config]

/-- One open buy or sell order of the powerup market. -/
structure OrderData where
  userID : String
  num : ℤ
  filledAmount : ℤ
  claimedAmount : ℤ
  price : ℤ
deriving DecidableEq

/-- One powerup's market state: its outstanding buy and sell orders. -/
structure ItemData where
  buyers : List OrderData
  sellers : List OrderData
deriving DecidableEq

/-- `new ItemData`: no outstanding orders. -/
def emptyItemData : ItemData := ⟨[], []⟩

/-- Modelled from the spec: the `BoarUser` profile store is an external
user-data component (only its callers are under `src/`); per §6 it is "a
user's mutable profile record (read and written by the aggregator)", modelled
as the two fields the reconciliation writes — per-powerup `numTotal` and the
user's `boarScore`. -/
structure BoarUserRecord where
  powerupsNumTotal : String → ℤ
  boarScore : ℤ

/-- Compensation of one outstanding buy order of a retired powerup: the buyer
gains `filledAmount - claimedAmount` units of the item and
`(num - filledAmount) * price` score. -/
def creditBuyOrder (powerupID : String) (users : String → BoarUserRecord)
    (order : OrderData) : String → BoarUserRecord :=
  fun uid =>
    if uid = order.userID then
      { powerupsNumTotal := fun k =>
          if k = powerupID then
            (users uid).powerupsNumTotal k + (order.filledAmount - order.claimedAmount)
          else (users uid).powerupsNumTotal k
        boarScore := (users uid).boarScore + (order.num - order.filledAmount) * order.price }
    else users uid

/-- Compensation of one outstanding sell order of a retired powerup: the
seller gains `num - filledAmount` units of the item and
`(filledAmount - claimedAmount) * price` score. -/
def creditSellOrder (powerupID : String) (users : String → BoarUserRecord)
    (order : OrderData) : String → BoarUserRecord :=
  fun uid =>
    if uid = order.userID then
      { powerupsNumTotal := fun k =>
          if k = powerupID then
            (users uid).powerupsNumTotal k + (order.num - order.filledAmount)
          else (users uid).powerupsNumTotal k
        boarScore := (users uid).boarScore +
          (order.filledAmount - order.claimedAmount) * order.price }
    else users uid

/-- The payout loops for one retired powerup key: all buy orders are credited
first, then all sell orders. -/
def compensateUsers (powerupID : String) (item : ItemData)
    (users : String → BoarUserRecord) : String → BoarUserRecord :=
  item.sellers.foldl (creditSellOrder powerupID)
    (item.buyers.foldl (creditBuyOrder powerupID) users)

/-- The first reconciliation loop of `getGlobalData(Items, updating)`: every
configured powerup key missing from the dataset gets a fresh empty entry. -/
def addMissingPowerups (powerupIDs : List String) (powerups : List (String × ItemData)) :
    List (String × ItemData) :=
  powerupIDs.foldl
    (fun acc powerupID =>
      if (acc.lookup powerupID).isSome then acc else acc ++ [(powerupID, emptyItemData)])
    powerups

/-- The item-catalogue reconciliation of `getGlobalData(Items, updating)`:
add fresh entries for new configured keys, then for every stored key no
longer configured pay out its outstanding orders and delete it.  Returns the
reconciled catalogue and the updated user store. -/
def reconcileItems (powerupIDs : List String) (powerups : List (String × ItemData))
    (users : String → BoarUserRecord) :
    List (String × ItemData) × (String → BoarUserRecord) :=
  ((addMissingPowerups powerupIDs powerups).filter (fun p => decide (p.1 ∈ powerupIDs)),
   (addMissingPowerups powerupIDs powerups).foldl
     (fun usersAcc p => if p.1 ∈ powerupIDs then usersAcc else compensateUsers p.1 p.2 usersAcc)
     users)

/-- Total score credited to `uid` by the compensation of one retired
powerup's orders, as the claim states it. -/
def scoreCredit (uid : String) (item : ItemData) : ℤ :=
  ((item.buyers.filter (fun o => o.userID == uid)).map
    (fun o => (o.num - o.filledAmount) * o.price)).sum +
  ((item.sellers.filter (fun o => o.userID == uid)).map
    (fun o => (o.filledAmount - o.claimedAmount) * o.price)).sum

/-- Total units of a retired powerup credited to `uid` by its compensation,
as the claim states it. -/
def unitsCredit (uid : String) (item : ItemData) : ℤ :=
  ((item.buyers.filter (fun o => o.userID == uid)).map
    (fun o => o.filledAmount - o.claimedAmount)).sum +
  ((item.sellers.filter (fun o => o.userID == uid)).map
    (fun o => o.num - o.filledAmount)).sum

/-- The quest-rotation staleness test of `getGlobalData(Quest, updating)`:
regenerate when the stored window start plus seven day-lengths is before
now. -/
def questNeedsUpdate (questsStartTimestamp oneDay now : ℤ) : Bool :=
  decide (questsStartTimestamp + oneDay * 7 < now)

/-- The new window start of `updateQuestData`: today's UTC midnight minus the
elapsed days of the week, in day-length units. -/
def newQuestsStartTimestamp (midnightToday : ℤ) (dayOfWeek : ℕ) (oneDay : ℤ) : ℤ :=
  midnightToday - (dayOfWeek : ℤ) * oneDay

/-- The regeneration loop of `updateQuestData`: each step splices the entry
at index `⌊rand i * pool.length⌋` out of the remaining pool; `none` models
the `undefined` produced by splicing an exhausted pool. -/
def drawQuestIDs (rand : ℕ → ℚ) : ℕ → ℕ → List String → Option (List String)
  | _, 0, _ => some []
  | i, Nat.succ n, pool =>
    match pool[Int.toNat ⌊rand i * pool.length⌋]? with
    | none => none
    | some questID =>
      (drawQuestIDs rand (i + 1) n
        (pool.eraseIdx (Int.toNat ⌊rand i * pool.length⌋))).map (questID :: ·)

/-- `DataHandlers.updateQuestData` without its I/O shell: the new window
start and the regenerated quest ID list (`numQuests = curQuestIDs.length`). -/
def updateQuestData (questKeys : List String) (numQuests : ℕ) (rand : ℕ → ℚ)
    (midnightToday : ℤ) (dayOfWeek : ℕ) (oneDay : ℤ) : ℤ × Option (List String) :=
  (newQuestsStartTimestamp midnightToday dayOfWeek oneDay,
   drawQuestIDs rand 0 numQuests questKeys)

/-! Concrete sample data used by counterexamples and witnesses. -/

/-- A common tier of weight 70, in the daily pool, with one member. -/
def commonRarity : RarityConfig := ⟨70, true, ["commonBoar"]⟩

/-- A rare tier of weight 30, in the daily pool, with one member. -/
def rareRarity : RarityConfig := ⟨30, true, ["rareBoar"]⟩

/-- A configuration with the two tiers above and unrestricted items. -/
def twoTierConfig : BotConfig :=
  ⟨[commonRarity, rareRarity], fun _ => ⟨false, false⟩, ⟨86400000, 10⟩, []⟩

/-- The weight map `{common: 70, rare: 30}` keyed by configured index. -/
def twoTierWeights : List (ℕ × ℚ) := [(0, 70), (1, 30)]

/-- A leaderboards dataset where user `u1` holds an entry and the top spot on
all ten metrics. -/
def sampleBoards : LeaderboardsData :=
  ⟨⟨[("u1", "Alice", 5)], some "u1"⟩, ⟨[("u1", "Alice", 7)], some "u1"⟩,
   ⟨[("u1", "Alice", 2)], some "u1"⟩, ⟨[("u1", "Alice", 3)], some "u1"⟩,
   ⟨[("u1", "Alice", 4)], some "u1"⟩, ⟨[("u1", "Alice", 6)], some "u1"⟩,
   ⟨[("u1", "Alice", 1)], some "u1"⟩, ⟨[("u1", "Alice", 8)], some "u1"⟩,
   ⟨[("u1", "Alice", 9)], some "u1"⟩, ⟨[("u1", "Alice", 1200)], some "u1"⟩⟩

/-- A board with no entries and no top holder. -/
def emptyBoard : BoardData := ⟨[], none⟩

/-- The freshly synthesized default leaderboards dataset. -/
def emptyLeaderboards : LeaderboardsData :=
  ⟨emptyBoard, emptyBoard, emptyBoard, emptyBoard, emptyBoard, emptyBoard, emptyBoard,
   emptyBoard, emptyBoard, emptyBoard⟩

/-- A sample user profile with positive stats. -/
def sampleProfile : BoarUserProfile :=
  ⟨"u2", "Bob", 10, 3, 2, 5, 1, 1, 30000, 4, 2, [("commonBoar", 2)]⟩

/-- A retired powerup's market state: one buy order by `b1`, one sell order
by `s1`. -/
def goneItem : ItemData := ⟨[⟨"b1", 5, 3, 1, 10⟩], [⟨"s1", 4, 2, 1, 7⟩]⟩

/-- Configured powerup keys for the reconciliation sample. -/
def marketKeysW : List String := ["keep", "new"]

/-- Stored powerup catalogue for the reconciliation sample: `keep` stays,
`gone` is retired. -/
def marketPowerupsW : List (String × ItemData) := [("keep", emptyItemData), ("gone", goneItem)]

/-- User store for the reconciliation sample: everyone starts at zero. -/
def marketUsersW : String → BoarUserRecord := fun _ => ⟨fun _ => 0, 0⟩

/-- Quest pool for the rotation sample. -/
def questPoolW : List String := ["qa", "qb", "qc", "qd"]

end BoarBot

namespace BoarBot

/-! Helper lemmas. -/

theorem getBaseRarityWeightsAux_lookup : ∀ (l : List RarityConfig) (i j : ℕ) (r : RarityConfig),
    l[j]? = some r →
    (getBaseRarityWeightsAux i l).lookup (i + j) = some (if r.fromDaily then r.weight else 0) := by
  intro l
  induction l with
  | nil => intro i j r h; simp at h
  | cons head tail ih =>
    intro i j r h
    cases j with
    | zero =>
      simp only [List.getElem?_cons_zero, Option.some_inj] at h
      subst h
      simp [getBaseRarityWeightsAux, List.lookup]
    | succ j' =>
      simp only [List.getElem?_cons_succ] at h
      have hb : ((i + (j' + 1)) == i) = false := by
        simp only [beq_eq_false_iff_ne, ne_eq]
        omega
      have hrec := ih (i + 1) j' r h
      rw [show i + (j' + 1) = i + 1 + j' by omega] at hb ⊢
      simp only [getBaseRarityWeightsAux, List.lookup, hb]
      exact hrec

theorem getBaseRarityWeightsAux_keys : ∀ (l : List RarityConfig) (i : ℕ),
    (getBaseRarityWeightsAux i l).map Prod.fst = List.range' i l.length := by
  intro l
  induction l with
  | nil => intro i; simp [getBaseRarityWeightsAux]
  | cons head tail ih =>
    intro i
    simp [getBaseRarityWeightsAux, ih, List.range'_succ]

theorem floorIndex_lt (r : ℚ) (n : ℕ) (h0 : 0 ≤ r) (h1 : r < 1) (hn : 0 < n) :
    Int.toNat ⌊r * n⌋ < n := by
  have h2 : (0:ℚ) < n := by exact_mod_cast hn
  have hlt : r * n < n := by nlinarith
  have hf : ⌊r * n⌋ < (n:ℤ) := by
    rw [Int.floor_lt]
    push_cast
    linarith
  have hnn : (0:ℤ) ≤ ⌊r * n⌋ := Int.floor_nonneg.mpr (by positivity)
  omega

theorem floorIndex_bounds (r : ℚ) (n : ℕ) (h0 : 0 ≤ r) (hn : 0 < n) :
    ((Int.toNat ⌊r * n⌋ : ℚ)) / n ≤ r ∧ r < ((Int.toNat ⌊r * n⌋ : ℚ) + 1) / n := by
  have h2 : (0:ℚ) < n := by exact_mod_cast hn
  have hnn : (0:ℤ) ≤ ⌊r * n⌋ := Int.floor_nonneg.mpr (by positivity)
  have hcast : ((Int.toNat ⌊r * n⌋ : ℚ)) = ((⌊r * n⌋ : ℤ) : ℚ) := by
    exact_mod_cast Int.toNat_of_nonneg hnn
  constructor
  · rw [div_le_iff₀ h2, hcast]
    exact Int.floor_le _
  · rw [lt_div_iff₀ h2, hcast]
    have := Int.lt_floor_add_one (r * n)
    push_cast at this
    linarith

theorem listMaxQ_mem (l : List ℚ) (h : l ≠ []) : listMaxQ l ∈ l := by
  induction l with
  | nil => exact absurd rfl h
  | cons q rest ih =>
    cases rest with
    | nil => simp [listMaxQ]
    | cons r rest' =>
      rw [listMaxQ]
      rcases le_total q (listMaxQ (r :: rest')) with hle | hle
      · rw [max_eq_right hle]
        exact List.mem_cons_of_mem _ (ih (by simp))
      · rw [max_eq_left hle]
        exact List.mem_cons_self _ _

theorem pickRarity_succeeds (maxProb randomRarity : ℚ) :
    ∀ probs : List (ℕ × ℚ), maxProb ∈ probs.map Prod.snd →
    ∃ idx, pickRarity maxProb randomRarity probs = some idx ∧ idx ∈ probs.map Prod.fst := by
  intro probs
  induction probs with
  | nil => intro h; simp at h
  | cons p rest ih =>
    intro hmax
    obtain ⟨i, q⟩ := p
    rw [pickRarity]
    by_cases hc : randomRarity > q ∧ maxProb ≠ q
    · rw [if_pos hc]
      have hrest : maxProb ∈ rest.map Prod.snd := by
        simp only [List.map_cons, List.mem_cons] at hmax
        exact hmax.resolve_left hc.2
      obtain ⟨idx, heq, hmem⟩ := ih hrest
      exact ⟨idx, heq, by simp [hmem]⟩
    · rw [if_neg hc]
      exact ⟨i, rfl, by simp⟩

theorem cumulProbs_keys (total : ℚ) : ∀ (prev : ℚ) (l : List (ℕ × ℚ)),
    (cumulProbs total prev l).map Prod.fst = l.map Prod.fst := by
  intro prev l
  induction l generalizing prev with
  | nil => simp [cumulProbs]
  | cons p rest ih =>
    obtain ⟨i, w⟩ := p
    simp [cumulProbs, ih]

theorem cumulProbs_length (total : ℚ) : ∀ (prev : ℚ) (l : List (ℕ × ℚ)),
    (cumulProbs total prev l).length = l.length := by
  intro prev l
  induction l generalizing prev with
  | nil => simp [cumulProbs]
  | cons p rest ih =>
    obtain ⟨i, w⟩ := p
    simp [cumulProbs, ih]

theorem findValid_some (rarityIndex : ℕ) (guildData : Option GuildData) (config : BotConfig)
    (r : ℚ) (h : rarityIndex < config.rarityConfigs.length) :
    ∃ s, findValid rarityIndex guildData config r = some s := by
  rw [findValid, List.getElem?_eq_getElem h]
  exact ⟨_, rfl⟩

theorem drawBoarsLoop_length (guildData : Option GuildData) (config : BotConfig)
    (probs : List (ℕ × ℚ)) (maxProb : ℚ) (randTier randBoar : ℕ → ℚ)
    (hpick : ∀ i : ℕ, ∃ idx, pickRarity maxProb (randTier i) probs = some idx ∧
      idx < config.rarityConfigs.length) :
    ∀ (n i : ℕ), ∃ ids,
      drawBoarsLoop guildData config probs maxProb randTier randBoar i n = some ids ∧
      ids.length = n := by
  intro n
  induction n with
  | zero => intro i; exact ⟨[], rfl, rfl⟩
  | succ n ih =>
    intro i
    obtain ⟨idx, heq, hlt⟩ := hpick i
    obtain ⟨s, hs⟩ := findValid_some idx guildData config (randBoar i) hlt
    obtain ⟨ids, hids, hlen⟩ := ih (i + 1)
    refine ⟨s :: ids, ?_, by simp [hlen]⟩
    rw [drawBoarsLoop, heq]
    simp [hs, hids]

theorem getElem_not_mem_eraseIdx {α : Type} : ∀ (l : List α) (i : ℕ) (h : i < l.length),
    l.Nodup → l.get ⟨i, h⟩ ∉ l.eraseIdx i := by
  intro l
  induction l with
  | nil => intro i h _; simp at h
  | cons a t ih =>
    intro i h hnd
    obtain ⟨ha, hts⟩ := List.nodup_cons.mp hnd
    cases i with
    | zero =>
      simpa using ha
    | succ j =>
      simp only [List.eraseIdx_cons_succ, List.get_cons_succ]
      intro hmem
      rcases List.mem_cons.1 hmem with heq | hmem'
      · exact ha (heq ▸ List.get_mem t _ _)
      · exact ih j (by simpa using h) hts hmem'

theorem drawQuestIDs_spec (rand : ℕ → ℚ) (hrand : ∀ i, 0 ≤ rand i ∧ rand i < 1) :
    ∀ (n i : ℕ) (pool : List String), pool.Nodup → n ≤ pool.length →
    ∃ ids, drawQuestIDs rand i n pool = some ids ∧ ids.length = n ∧ ids.Nodup ∧
      ∀ q ∈ ids, q ∈ pool := by
  intro n
  induction n with
  | zero => intro i pool _ _; exact ⟨[], rfl, rfl, List.nodup_nil, by simp⟩
  | succ n ih =>
    intro i pool hnd hlen
    have hpos : 0 < pool.length := by omega
    have hidx := floorIndex_lt (rand i) pool.length (hrand i).1 (hrand i).2 hpos
    have hget : pool[Int.toNat ⌊rand i * pool.length⌋]? =
        some (pool.get ⟨Int.toNat ⌊rand i * pool.length⌋, hidx⟩) := by
      rw [List.getElem?_eq_getElem hidx, List.get_eq_getElem]
    have hlen_erase : (pool.eraseIdx (Int.toNat ⌊rand i * pool.length⌋)).length =
        pool.length - 1 := by
      rw [List.length_eraseIdx]
      simp [hidx]
    have hnd' : (pool.eraseIdx (Int.toNat ⌊rand i * pool.length⌋)).Nodup :=
      List.Nodup.sublist (List.eraseIdx_sublist pool _) hnd
    obtain ⟨ids, hids, hlen', hnd'', hmem⟩ :=
      ih (i + 1) (pool.eraseIdx (Int.toNat ⌊rand i * pool.length⌋)) hnd' (by omega)
    refine ⟨pool.get ⟨Int.toNat ⌊rand i * pool.length⌋, hidx⟩ :: ids, ?_, by simp [hlen'],
      ?_, ?_⟩
    · rw [drawQuestIDs, hget]
      simp [hids]
    · exact List.nodup_cons.mpr
        ⟨fun hc => getElem_not_mem_eraseIdx pool _ hidx hnd (hmem _ hc), hnd''⟩
    · intro q hq
      rcases List.mem_cons.1 hq with rfl | hq'
      · exact List.get_mem pool _ _
      · exact (List.eraseIdx_sublist pool _).subset (hmem q hq')

theorem setEntry_mem : ∀ (l : List (String × String × ℤ)) (uid un : String) (v : ℤ)
    (e : String × String × ℤ), e ∈ setEntry l uid un v → e = (uid, un, v) ∨ e ∈ l := by
  intro l uid un v e
  induction l with
  | nil =>
    intro h
    rw [setEntry] at h
    simp at h
    exact Or.inl h
  | cons a t ih =>
    intro h
    rw [setEntry] at h
    by_cases hc : a.1 = uid
    · rw [if_pos hc] at h
      rcases List.mem_cons.1 h with rfl | hm
      · exact Or.inl rfl
      · exact Or.inr (List.mem_cons_of_mem _ hm)
    · rw [if_neg hc] at h
      rcases List.mem_cons.1 h with rfl | hm
      · exact Or.inr (List.mem_cons_self _ _)
      · rcases ih hm with h1 | h2
        · exact Or.inl h1
        · exact Or.inr (List.mem_cons_of_mem _ h2)

theorem boardAllPos_upsert (board : BoardData) (uid un : String) (v : ℤ)
    (h : boardAllPos board) : boardAllPos (upsertBoard board uid un v) := by
  rw [upsertBoard]
  by_cases hv : 0 < v
  · rw [if_pos hv]
    intro e he
    rcases setEntry_mem board.userData uid un v e he with rfl | hm
    · exact hv
    · exact h e hm
  · rw [if_neg hv]
    intro e he
    exact h e (List.mem_of_mem_filter he)

theorem boardAllPos_removeStep (board : BoardData) (uid : String) (h : boardAllPos board) :
    boardAllPos (clearTopUser { board with userData := deleteEntry board.userData uid } uid) := by
  intro e he
  exact h e (List.mem_of_mem_filter he)

theorem creditBuyOrder_score (powerupID : String) (users : String → BoarUserRecord)
    (o : OrderData) (uid : String) :
    ((creditBuyOrder powerupID users o) uid).boarScore =
      (users uid).boarScore +
        (if o.userID = uid then (o.num - o.filledAmount) * o.price else 0) := by
  rw [creditBuyOrder]
  by_cases h : uid = o.userID
  · subst h
    simp
  · have h' : ¬(o.userID = uid) := fun e => h e.symm
    simp [h, h']

theorem creditSellOrder_score (powerupID : String) (users : String → BoarUserRecord)
    (o : OrderData) (uid : String) :
    ((creditSellOrder powerupID users o) uid).boarScore =
      (users uid).boarScore +
        (if o.userID = uid then (o.filledAmount - o.claimedAmount) * o.price else 0) := by
  rw [creditSellOrder]
  by_cases h : uid = o.userID
  · subst h
    simp
  · have h' : ¬(o.userID = uid) := fun e => h e.symm
    simp [h, h']

theorem creditBuyOrder_units (powerupID : String) (users : String → BoarUserRecord)
    (o : OrderData) (uid k : String) :
    ((creditBuyOrder powerupID users o) uid).powerupsNumTotal k =
      (users uid).powerupsNumTotal k +
        (if o.userID = uid ∧ k = powerupID then o.filledAmount - o.claimedAmount else 0) := by
  rw [creditBuyOrder]
  by_cases h : uid = o.userID
  · subst h
    by_cases hk : k = powerupID <;> simp [hk]
  · have h' : ¬(o.userID = uid) := fun e => h e.symm
    simp [h, h']

theorem creditSellOrder_units (powerupID : String) (users : String → BoarUserRecord)
    (o : OrderData) (uid k : String) :
    ((creditSellOrder powerupID users o) uid).powerupsNumTotal k =
      (users uid).powerupsNumTotal k +
        (if o.userID = uid ∧ k = powerupID then o.num - o.filledAmount else 0) := by
  rw [creditSellOrder]
  by_cases h : uid = o.userID
  · subst h
    by_cases hk : k = powerupID <;> simp [hk]
  · have h' : ¬(o.userID = uid) := fun e => h e.symm
    simp [h, h']

theorem foldl_creditBuyOrder_score (powerupID uid : String) :
    ∀ (orders : List OrderData) (users : String → BoarUserRecord),
    ((orders.foldl (creditBuyOrder powerupID) users) uid).boarScore =
      (users uid).boarScore +
        ((orders.filter (fun o => o.userID == uid)).map
          (fun o => (o.num - o.filledAmount) * o.price)).sum := by
  intro orders
  induction orders with
  | nil => intro users; simp
  | cons o rest ih =>
    intro users
    rw [List.foldl_cons, ih, creditBuyOrder_score, List.filter_cons]
    by_cases h : o.userID = uid
    · simp only [h, beq_self_eq_true, if_true, List.map_cons, List.sum_cons, if_pos rfl]
      ring
    · have hb : (o.userID == uid) = false := by simp [h]
      simp [h, hb]

theorem foldl_creditSellOrder_score (powerupID uid : String) :
    ∀ (orders : List OrderData) (users : String → BoarUserRecord),
    ((orders.foldl (creditSellOrder powerupID) users) uid).boarScore =
      (users uid).boarScore +
        ((orders.filter (fun o => o.userID == uid)).map
          (fun o => (o.filledAmount - o.claimedAmount) * o.price)).sum := by
  intro orders
  induction orders with
  | nil => intro users; simp
  | cons o rest ih =>
    intro users
    rw [List.foldl_cons, ih, creditSellOrder_score, List.filter_cons]
    by_cases h : o.userID = uid
    · simp only [h, beq_self_eq_true, if_true, List.map_cons, List.sum_cons, if_pos rfl]
      ring
    · have hb : (o.userID == uid) = false := by simp [h]
      simp [h, hb]

theorem foldl_creditBuyOrder_units (powerupID uid k : String) :
    ∀ (orders : List OrderData) (users : String → BoarUserRecord),
    ((orders.foldl (creditBuyOrder powerupID) users) uid).powerupsNumTotal k =
      (users uid).powerupsNumTotal k +
        (if k = powerupID then
          ((orders.filter (fun o => o.userID == uid)).map
            (fun o => o.filledAmount - o.claimedAmount)).sum
         else 0) := by
  intro orders
  induction orders with
  | nil => intro users; simp
  | cons o rest ih =>
    intro users
    rw [List.foldl_cons, ih, creditBuyOrder_units, List.filter_cons]
    by_cases h : o.userID = uid <;> by_cases hk : k = powerupID
    · have hb : (o.userID == uid) = true := by simp [h]
      simp [h, hk, hb]
      ring
    · have hb : (o.userID == uid) = true := by simp [h]
      simp [h, hk, hb]
    · have hb : (o.userID == uid) = false := by simp [h]
      simp [h, hk, hb]
    · have hb : (o.userID == uid) = false := by simp [h]
      simp [h, hk, hb]

theorem foldl_creditSellOrder_units (powerupID uid k : String) :
    ∀ (orders : List OrderData) (users : String → BoarUserRecord),
    ((orders.foldl (creditSellOrder powerupID) users) uid).powerupsNumTotal k =
      (users uid).powerupsNumTotal k +
        (if k = powerupID then
          ((orders.filter (fun o => o.userID == uid)).map
            (fun o => o.num - o.filledAmount)).sum
         else 0) := by
  intro orders
  induction orders with
  | nil => intro users; simp
  | cons o rest ih =>
    intro users
    rw [List.foldl_cons, ih, creditSellOrder_units, List.filter_cons]
    by_cases h : o.userID = uid <;> by_cases hk : k = powerupID
    · have hb : (o.userID == uid) = true := by simp [h]
      simp [h, hk, hb]
      ring
    · have hb : (o.userID == uid) = true := by simp [h]
      simp [h, hk, hb]
    · have hb : (o.userID == uid) = false := by simp [h]
      simp [h, hk, hb]
    · have hb : (o.userID == uid) = false := by simp [h]
      simp [h, hk, hb]

theorem compensateUsers_score (powerupID : String) (item : ItemData)
    (users : String → BoarUserRecord) (uid : String) :
    ((compensateUsers powerupID item users) uid).boarScore =
      (users uid).boarScore + scoreCredit uid item := by
  rw [compensateUsers, foldl_creditSellOrder_score, foldl_creditBuyOrder_score, scoreCredit]
  ring

theorem compensateUsers_units (powerupID : String) (item : ItemData)
    (users : String → BoarUserRecord) (uid k : String) :
    ((compensateUsers powerupID item users) uid).powerupsNumTotal k =
      (users uid).powerupsNumTotal k + (if k = powerupID then unitsCredit uid item else 0) := by
  rw [compensateUsers, foldl_creditSellOrder_units, foldl_creditBuyOrder_units, unitsCredit]
  by_cases hk : k = powerupID
  · simp [hk]
    ring
  · simp [hk]

theorem reconcileFold_score (powerupIDs : List String) (uid : String) :
    ∀ (entries : List (String × ItemData)) (users : String → BoarUserRecord),
    ((entries.foldl (fun usersAcc p =>
        if p.1 ∈ powerupIDs then usersAcc else compensateUsers p.1 p.2 usersAcc) users)
          uid).boarScore =
      (users uid).boarScore +
        ((entries.filter (fun p => !decide (p.1 ∈ powerupIDs))).map
          (fun p => scoreCredit uid p.2)).sum := by
  intro entries
  induction entries with
  | nil => intro users; simp
  | cons p rest ih =>
    intro users
    rw [List.foldl_cons, ih, List.filter_cons]
    by_cases h : p.1 ∈ powerupIDs
    · simp [h]
    · rw [if_neg h, compensateUsers_score]
      simp [h]
      ring

theorem reconcileFold_units (powerupIDs : List String) (uid k : String) :
    ∀ (entries : List (String × ItemData)) (users : String → BoarUserRecord),
    ((entries.foldl (fun usersAcc p =>
        if p.1 ∈ powerupIDs then usersAcc else compensateUsers p.1 p.2 usersAcc) users)
          uid).powerupsNumTotal k =
      (users uid).powerupsNumTotal k +
        ((entries.filter (fun p => !decide (p.1 ∈ powerupIDs) && p.1 == k)).map
          (fun p => unitsCredit uid p.2)).sum := by
  intro entries
  induction entries with
  | nil => intro users; simp
  | cons p rest ih =>
    intro users
    rw [List.foldl_cons, ih, List.filter_cons]
    by_cases h : p.1 ∈ powerupIDs
    · simp [h]
    · rw [if_neg h, compensateUsers_units]
      by_cases hk : k = p.1
      · have hb : (p.1 == k) = true := by simp [hk.symm]
        simp [h, hk, hb]
        ring
      · have hb : (p.1 == k) = false := by
          simp only [beq_eq_false_iff_ne, ne_eq]
          exact fun e => hk e.symm
        simp [h, hk, hb]

theorem lookup_append_right {β : Type} (l₁ l₂ : List (String × β)) (k : String)
    (h : l₁.lookup k = none) : (l₁ ++ l₂).lookup k = l₂.lookup k := by
  induction l₁ with
  | nil => simp
  | cons a t ih =>
    rw [List.lookup] at h
    rw [List.cons_append, List.lookup]
    cases hb : (k == a.1) with
    | true =>
      rw [hb] at h
      simp at h
    | false =>
      rw [hb] at h
      exact ih h

theorem lookup_append_left {β : Type} (l₁ l₂ : List (String × β)) (k : String) (v : β)
    (h : l₁.lookup k = some v) : (l₁ ++ l₂).lookup k = some v := by
  induction l₁ with
  | nil => simp at h
  | cons a t ih =>
    rw [List.lookup] at h
    rw [List.cons_append, List.lookup]
    cases hb : (k == a.1) with
    | true =>
      rw [hb] at h
      exact h
    | false =>
      rw [hb] at h
      exact ih h

theorem addMissingPowerups_lookup_mono (k : String) (v : ItemData) :
    ∀ (powerupIDs : List String) (powerups : List (String × ItemData)),
    powerups.lookup k = some v →
    (addMissingPowerups powerupIDs powerups).lookup k = some v := by
  intro powerupIDs
  induction powerupIDs with
  | nil => intro pows h; exact h
  | cons id0 rest ih =>
    intro pows h
    rw [addMissingPowerups, List.foldl_cons]
    by_cases hc : (pows.lookup id0).isSome
    · rw [if_pos hc]
      exact ih pows h
    · rw [if_neg hc]
      exact ih _ (lookup_append_left pows _ k v h)

theorem addMissingPowerups_lookup_new (k : String) :
    ∀ (powerupIDs : List String) (powerups : List (String × ItemData)),
    k ∈ powerupIDs → powerups.lookup k = none →
    (addMissingPowerups powerupIDs powerups).lookup k = some emptyItemData := by
  intro powerupIDs
  induction powerupIDs with
  | nil => intro pows hk _; simp at hk
  | cons id0 rest ih =>
    intro pows hk hnone
    rw [addMissingPowerups, List.foldl_cons]
    by_cases h0 : id0 = k
    · subst h0
      rw [if_neg (by simp [hnone])]
      have hlook : (pows ++ [(id0, emptyItemData)]).lookup id0 = some emptyItemData := by
        rw [lookup_append_right pows _ id0 hnone]
        simp [List.lookup]
      exact addMissingPowerups_lookup_mono id0 emptyItemData rest _ hlook
    · have hk' : k ∈ rest := by
        rcases List.mem_cons.1 hk with h | h
        · exact absurd h.symm h0
        · exact h
      by_cases hc : (pows.lookup id0).isSome
      · rw [if_pos hc]
        exact ih pows hk' hnone
      · rw [if_neg hc]
        refine ih _ hk' ?_
        rw [lookup_append_right pows _ k hnone]
        have : (k == id0) = false := by
          simp only [beq_eq_false_iff_ne, ne_eq]
          exact fun e => h0 e.symm
        simp [List.lookup, this]

theorem addMissingPowerups_split (powerupIDs : List String) :
    ∀ (powerups : List (String × ItemData)),
    ∃ extra, addMissingPowerups powerupIDs powerups = powerups ++ extra ∧
      ∀ p ∈ extra, p.1 ∈ powerupIDs := by
  induction powerupIDs with
  | nil => intro pows; exact ⟨[], by simp [addMissingPowerups], by simp⟩
  | cons id0 rest ih =>
    intro pows
    rw [addMissingPowerups, List.foldl_cons]
    by_cases hc : (pows.lookup id0).isSome
    · rw [if_pos hc]
      obtain ⟨extra, heq, hmem⟩ := ih pows
      exact ⟨extra, heq, fun p hp => List.mem_cons_of_mem _ (hmem p hp)⟩
    · rw [if_neg hc]
      obtain ⟨extra, heq, hmem⟩ := ih (pows ++ [(id0, emptyItemData)])
      refine ⟨(id0, emptyItemData) :: extra, ?_, ?_⟩
      · show addMissingPowerups rest (pows ++ [(id0, emptyItemData)]) = _
        rw [heq]
        simp
      · intro p hp
        rcases List.mem_cons.1 hp with rfl | hp'
        · exact List.mem_cons_self _ _
        · exact List.mem_cons_of_mem _ (hmem p hp')

theorem lookup_filter_mem (powerupIDs : List String) (k : String) (hk : k ∈ powerupIDs) :
    ∀ (l : List (String × ItemData)),
    (l.filter (fun p => decide (p.1 ∈ powerupIDs))).lookup k = l.lookup k := by
  intro l
  induction l with
  | nil => simp
  | cons a t ih =>
    rw [List.filter_cons]
    by_cases ha : a.1 ∈ powerupIDs
    · rw [if_pos (by simpa using ha)]
      rw [List.lookup, List.lookup]
      cases hb : (k == a.1) with
      | true => rfl
      | false => exact ih
    · rw [if_neg (by simpa using ha)]
      have hb : (k == a.1) = false := by
        simp only [beq_eq_false_iff_ne, ne_eq]
        intro e
        exact ha (e ▸ hk)
      rw [List.lookup, hb]
      exact ih

theorem lookup_filter_not_mem (powerupIDs : List String) (k : String) (hk : k ∉ powerupIDs) :
    ∀ (l : List (String × ItemData)),
    (l.filter (fun p => decide (p.1 ∈ powerupIDs))).lookup k = none := by
  intro l
  induction l with
  | nil => simp
  | cons a t ih =>
    rw [List.filter_cons]
    by_cases ha : a.1 ∈ powerupIDs
    · rw [if_pos (by simpa using ha)]
      have hb : (k == a.1) = false := by
        simp only [beq_eq_false_iff_ne, ne_eq]
        intro e
        exact hk (e ▸ ha)
      rw [List.lookup, hb]
      exact ih
    · rw [if_neg (by simpa using ha)]
      exact ih

/-! Claim theorems. -/

/-- C1 counterexample.  In the scenario `{common: 70, rare: 30}` with both
tiers `fromDaily`, the cumulative table sorts ascending by weight, so the
boundaries are rare = 0.3 and common = 1.0 — not common = 0.7, rare = 1.0 —
and a tier sample of 0.9 selects the common tier's boar, which is not a
member of the rare tier. -/
theorem getRandBoars_fixed_point_nine_not_rare :
    getRandBoars none twoTierWeights false 0 twoTierConfig 0 (fun _ => 9/10) (fun _ => 0) =
      some ["commonBoar"] ∧
    "commonBoar" ∉ rareRarity.boars ∧
    probTable twoTierWeights ≠ [(0, 7/10), (1, 1)] := by
  refine ⟨?_, by decide, ?_⟩
  · norm_num [getRandBoars, probTable, sortRarityWeights, List.insertionSort,
      List.orderedInsert, cumulProbs, listMaxQ, drawBoarsLoop, pickRarity, findValid,
      validBoars, numBoarsDrawn, guildSBServer, twoTierConfig, twoTierWeights, commonRarity,
      rareRarity]
  · norm_num [probTable, sortRarityWeights, List.insertionSort, List.orderedInsert,
      cumulProbs, twoTierWeights]

/-- C1 amended.  For the weight mapping `{common: 70, rare: 30}` with both
tiers `fromDaily`, the cumulative boundaries are rare = 0.3 and common = 1.0,
and a single draw whose tier sample is 0.9 selects from the common tier. -/
theorem getRandBoars_fixed_point_nine_selects_common :
    probTable twoTierWeights = [(1, 3/10), (0, 1)] ∧
    getRandBoars none twoTierWeights false 0 twoTierConfig 0 (fun _ => 9/10) (fun _ => 0) =
      some ["commonBoar"] ∧
    "commonBoar" ∈ commonRarity.boars := by
  refine ⟨?_, ?_, by decide⟩
  · norm_num [probTable, sortRarityWeights, List.insertionSort, List.orderedInsert,
      cumulProbs, twoTierWeights]
  · norm_num [getRandBoars, probTable, sortRarityWeights, List.insertionSort,
      List.orderedInsert, cumulProbs, listMaxQ, drawBoarsLoop, pickRarity, findValid,
      validBoars, numBoarsDrawn, guildSBServer, twoTierConfig, twoTierWeights, commonRarity,
      rareRarity]

/-- C2.  `removeLeaderboardUser` deletes the user and clears `topUser` on
only eight of the ten metrics maintained by `updateLeaderboardData`: on a
dataset where `u1` holds entries and top spots everywhere, the `uniquesSB`
and `fastest` boards keep both the entry and the `topUser` pointer, while
(for example) `bucks` is fully cleared.  This contradicts the documented
"every metric" contract. -/
theorem removeLeaderboardUser_leaves_uniquesSB_fastest :
    (removeLeaderboardUser sampleBoards "u1").uniquesSB.userData = [("u1", "Alice", 3)] ∧
    (removeLeaderboardUser sampleBoards "u1").uniquesSB.topUser = some "u1" ∧
    (removeLeaderboardUser sampleBoards "u1").fastest.userData = [("u1", "Alice", 1200)] ∧
    (removeLeaderboardUser sampleBoards "u1").fastest.topUser = some "u1" ∧
    (removeLeaderboardUser sampleBoards "u1").bucks.userData = [] ∧
    (removeLeaderboardUser sampleBoards "u1").bucks.topUser = none := by
  decide

/-- C5 counterexample.  `getBaseRarityWeights` is keyed by the tier's
0-based position in configuration order, not by the 1-based descending-weight
rank the spec describes: with tiers `[weight 70, weight 30]`, the value at
key 1 is 30 in the code's mapping but 70 in the spec's mapping. -/
theorem getBaseRarityWeights_not_spec_rank_keyed :
    (getBaseRarityWeights twoTierConfig).lookup 1 ≠
      (specBaseRarityWeights twoTierConfig).lookup 1 := by
  have h1 : getBaseRarityWeights twoTierConfig = [(0, (70:ℚ)), (1, 30)] := by
    norm_num [getBaseRarityWeights, getBaseRarityWeightsAux, twoTierConfig, commonRarity,
      rareRarity]
  have h2 : specBaseRarityWeights twoTierConfig = [(1, (70:ℚ)), (2, 30)] := by
    norm_num [specBaseRarityWeights, getBaseRarityWeightsAux, List.insertionSort,
      List.orderedInsert, twoTierConfig, commonRarity, rareRarity]
  rw [h1, h2]
  simp [List.lookup]

/-- C5 amended.  `getBaseRarityWeights` returns a mapping whose keys are the
0-based indexes of the tiers in configuration order, and whose value for each
tier is its configured weight, forced to 0 when `fromDaily` is false. -/
theorem getBaseRarityWeights_config_index_keyed (config : BotConfig) (i : ℕ)
    (rarity : RarityConfig) (h : config.rarityConfigs[i]? = some rarity) :
    (getBaseRarityWeights config).map Prod.fst = List.range config.rarityConfigs.length ∧
    (getBaseRarityWeights config).lookup i =
      some (if rarity.fromDaily then rarity.weight else 0) := by
  constructor
  · rw [getBaseRarityWeights, getBaseRarityWeightsAux_keys, List.range_eq_range']
  · have := getBaseRarityWeightsAux_lookup config.rarityConfigs 0 i rarity h
    simpa [getBaseRarityWeights] using this

/-- C5 witness: the amended statement evaluated on the two-tier sample
configuration at index 1. -/
theorem getBaseRarityWeights_config_index_keyed_witness :
    (getBaseRarityWeights twoTierConfig).map Prod.fst =
      List.range twoTierConfig.rarityConfigs.length ∧
    (getBaseRarityWeights twoTierConfig).lookup 1 =
      some (if rareRarity.fromDaily then rareRarity.weight else 0) :=
  getBaseRarityWeights_config_index_keyed twoTierConfig 1 rareRarity rfl

/-- C3.  Reconciling the powerup catalogue: every configured key absent from
the dataset ends up with a fresh empty entry; every stored key absent from
configuration is deleted, and before deletion each affected user is credited,
per outstanding buy order, `filledAmount - claimedAmount` units of the item
and `(num - filledAmount) * price` score, and per outstanding sell order
`num - filledAmount` units and `(filledAmount - claimedAmount) * price`
score (summed below over all retired keys and the user's orders). -/
theorem reconcileItems_compensates (powerupIDs : List String)
    (powerups : List (String × ItemData)) (users : String → BoarUserRecord)
    (uid k : String) :
    (k ∈ powerupIDs → powerups.lookup k = none →
      (reconcileItems powerupIDs powerups users).1.lookup k = some emptyItemData) ∧
    (k ∉ powerupIDs → (reconcileItems powerupIDs powerups users).1.lookup k = none) ∧
    ((reconcileItems powerupIDs powerups users).2 uid).boarScore =
      (users uid).boarScore +
        ((powerups.filter (fun p => !decide (p.1 ∈ powerupIDs))).map
          (fun p => scoreCredit uid p.2)).sum ∧
    ((reconcileItems powerupIDs powerups users).2 uid).powerupsNumTotal k =
      (users uid).powerupsNumTotal k +
        ((powerups.filter (fun p => !decide (p.1 ∈ powerupIDs) && p.1 == k)).map
          (fun p => unitsCredit uid p.2)).sum := by
  obtain ⟨extra, hsplit, hextra⟩ := addMissingPowerups_split powerupIDs powerups
  refine ⟨?_, ?_, ?_, ?_⟩
  · intro hk hnone
    simp only [reconcileItems]
    rw [lookup_filter_mem powerupIDs k hk]
    exact addMissingPowerups_lookup_new k powerupIDs powerups hk hnone
  · intro hk
    simp only [reconcileItems]
    exact lookup_filter_not_mem powerupIDs k hk _
  · simp only [reconcileItems]
    rw [reconcileFold_score, hsplit, List.filter_append]
    have hextra_nil : extra.filter (fun p => !decide (p.1 ∈ powerupIDs)) = [] := by
      rw [List.filter_eq_nil_iff]
      intro p hp
      simp [hextra p hp]
    rw [hextra_nil, List.append_nil]
  · simp only [reconcileItems]
    rw [reconcileFold_units, hsplit, List.filter_append]
    have hextra_nil :
        extra.filter (fun p => !decide (p.1 ∈ powerupIDs) && p.1 == k) = [] := by
      rw [List.filter_eq_nil_iff]
      intro p hp
      simp [hextra p hp]
    rw [hextra_nil, List.append_nil]

/-- C3 witness: the statement evaluated on a catalogue where `new` is newly
configured, `keep` persists, and `gone` is retired with one buy and one sell
order; `b1` is the retired item's buyer. -/
theorem reconcileItems_compensates_witness :
    ("new" ∈ marketKeysW) ∧ (marketPowerupsW.lookup "new" = none) ∧
    ("gone" ∉ marketKeysW) ∧
    ((reconcileItems marketKeysW marketPowerupsW marketUsersW).1.lookup "new" =
      some emptyItemData) ∧
    ((reconcileItems marketKeysW marketPowerupsW marketUsersW).1.lookup "gone" = none) ∧
    ((reconcileItems marketKeysW marketPowerupsW marketUsersW).2 "b1").boarScore =
      (marketUsersW "b1").boarScore +
        ((marketPowerupsW.filter (fun p => !decide (p.1 ∈ marketKeysW))).map
          (fun p => scoreCredit "b1" p.2)).sum :=
  ⟨by decide, by decide, by decide,
   (reconcileItems_compensates marketKeysW marketPowerupsW marketUsersW "b1" "new").1
     (by decide) (by decide),
   (reconcileItems_compensates marketKeysW marketPowerupsW marketUsersW "b1" "gone").2.1
     (by decide),
   (reconcileItems_compensates marketKeysW marketPowerupsW marketUsersW "b1" "new").2.2.1⟩

/-- C4.  For every guild context and nonempty weight mapping whose keys are
valid rarity indexes, `getRandBoars` with `extra = false` returns exactly one
result; with `extra = true` the number of results is
`1 + ⌊extraVal/100⌋`, plus one further result exactly when the bonus roll is
below `(extraVal % 100)/100`; in particular `extraVal = 250` always yields at
least 3 results. -/
theorem getRandBoars_draw_count (guildData : Option GuildData) (config : BotConfig)
    (rarityWeights : List (ℕ × ℚ)) (extra : Bool) (extraVal : ℕ)
    (randBonus : ℚ) (randTier randBoar : ℕ → ℚ)
    (hne : rarityWeights ≠ [])
    (hvalid : ∀ p ∈ rarityWeights, p.1 < config.rarityConfigs.length) :
    ∃ ids, getRandBoars guildData rarityWeights extra extraVal config randBonus randTier
        randBoar = some ids ∧
      ids.length = numBoarsDrawn extra extraVal randBonus ∧
      (extra = false → ids.length = 1) ∧
      (extra = true → ids.length =
        1 + extraVal / 100 + (if randBonus < ((extraVal % 100 : ℕ) : ℚ) / 100 then 1 else 0)) ∧
      (extra = true → extraVal = 250 → 3 ≤ ids.length) := by
  have hperm := List.perm_insertionSort (fun a b : ℕ × ℚ => a.2 ≤ b.2) rarityWeights
  have hkeys : (probTable rarityWeights).map Prod.fst =
      (sortRarityWeights rarityWeights).map Prod.fst := cumulProbs_keys _ _ _
  have hlen_sort : (sortRarityWeights rarityWeights).length = rarityWeights.length :=
    hperm.length_eq
  have hprobs_len : (probTable rarityWeights).length = rarityWeights.length := by
    rw [probTable, cumulProbs_length, hlen_sort]
  have hprobs_ne : probTable rarityWeights ≠ [] := by
    intro hnil
    rw [hnil] at hprobs_len
    simp only [List.length_nil] at hprobs_len
    exact hne (List.length_eq_zero.mp hprobs_len.symm)
  have hmax : listMaxQ ((probTable rarityWeights).map Prod.snd) ∈
      (probTable rarityWeights).map Prod.snd :=
    listMaxQ_mem _ (by simpa using hprobs_ne)
  have hpick : ∀ i : ℕ, ∃ idx,
      pickRarity (listMaxQ ((probTable rarityWeights).map Prod.snd)) (randTier i)
        (probTable rarityWeights) = some idx ∧ idx < config.rarityConfigs.length := by
    intro i
    obtain ⟨idx, heq, hmem⟩ := pickRarity_succeeds _ (randTier i) _ hmax
    refine ⟨idx, heq, ?_⟩
    rw [hkeys] at hmem
    obtain ⟨p, hp, rfl⟩ := List.mem_map.1 hmem
    exact hvalid p (hperm.mem_iff.mp hp)
  obtain ⟨ids, hids, hlen⟩ := drawBoarsLoop_length guildData config _ _ randTier randBoar hpick
    (numBoarsDrawn extra extraVal randBonus) 0
  have hempty : rarityWeights.isEmpty = false := by
    cases rarityWeights with
    | nil => exact absurd rfl hne
    | cons a l => rfl
  refine ⟨ids, ?_, hlen, ?_, ?_, ?_⟩
  · rw [getRandBoars, hempty]
    exact hids
  · intro hf
    rw [hlen, numBoarsDrawn, hf]
    rfl
  · intro ht
    rw [hlen, numBoarsDrawn, ht]
    simp
  · intro ht hv
    subst hv
    rw [hlen, numBoarsDrawn, ht]
    by_cases hb : randBonus < ((250 % 100 : ℕ) : ℚ) / 100 <;> simp [hb]

/-- C4 witness: the statement evaluated on the two-tier sample with
`extra = true` and `extraVal = 250`. -/
theorem getRandBoars_draw_count_witness :
    (twoTierWeights ≠ []) ∧
    (∀ p ∈ twoTierWeights, p.1 < twoTierConfig.rarityConfigs.length) ∧
    (∃ ids, getRandBoars none twoTierWeights true 250 twoTierConfig (1/2) (fun _ => 0)
        (fun _ => 0) = some ids ∧
      ids.length = numBoarsDrawn true 250 (1/2) ∧
      (true = false → ids.length = 1) ∧
      (true = true → ids.length =
        1 + 250 / 100 + (if (1:ℚ)/2 < ((250 % 100 : ℕ) : ℚ) / 100 then 1 else 0)) ∧
      (true = true → 250 = 250 → 3 ≤ ids.length)) :=
  ⟨by simp [twoTierWeights], by simp [twoTierWeights, twoTierConfig],
    getRandBoars_draw_count none twoTierConfig twoTierWeights true 250 (1/2) (fun _ => 0)
      (fun _ => 0) (by simp [twoTierWeights]) (by simp [twoTierWeights, twoTierConfig])⟩

/-- C7.  The quest rotation regenerates exactly when the stored start is more
than seven day-lengths before now; the new start is midnight minus the
elapsed days of the week in day-length units; and the regenerated list has
exactly `numQuests` pairwise-distinct entries drawn from the configured pool
(assuming, as `Object.keys` guarantees, a duplicate-free pool at least as
large as the rotation). -/
theorem updateQuestData_regenerates (questKeys : List String) (numQuests : ℕ)
    (rand : ℕ → ℚ) (midnightToday : ℤ) (dayOfWeek : ℕ) (oneDay : ℤ)
    (questsStartTimestamp now : ℤ)
    (hnd : questKeys.Nodup) (hlen : numQuests ≤ questKeys.length)
    (hrand : ∀ i, 0 ≤ rand i ∧ rand i < 1) :
    (questNeedsUpdate questsStartTimestamp oneDay now = true ↔
      now - questsStartTimestamp > oneDay * 7) ∧
    (updateQuestData questKeys numQuests rand midnightToday dayOfWeek oneDay).1 =
      midnightToday - (dayOfWeek : ℤ) * oneDay ∧
    ∃ ids, (updateQuestData questKeys numQuests rand midnightToday dayOfWeek oneDay).2 =
        some ids ∧ ids.length = numQuests ∧ ids.Nodup ∧ ∀ q ∈ ids, q ∈ questKeys := by
  refine ⟨?_, rfl, ?_⟩
  · rw [questNeedsUpdate]
    rw [decide_eq_true_eq]
    omega
  · exact drawQuestIDs_spec rand hrand numQuests 0 questKeys hnd hlen

/-- C7 witness: a 3-entry rotation over a 4-quest pool, with a start
timestamp 8 day-lengths in the past (which satisfies the staleness test). -/
theorem updateQuestData_regenerates_witness :
    questPoolW.Nodup ∧ 3 ≤ questPoolW.length ∧
    ((questNeedsUpdate 0 86400000 691200000 = true ↔ (691200000:ℤ) - 0 > 86400000 * 7) ∧
      (updateQuestData questPoolW 3 (fun _ => 1/2) 1000000 2 86400000).1 =
        1000000 - ((2:ℕ) : ℤ) * 86400000 ∧
      ∃ ids, (updateQuestData questPoolW 3 (fun _ => 1/2) 1000000 2 86400000).2 =
        some ids ∧ ids.length = 3 ∧ ids.Nodup ∧ ∀ q ∈ ids, q ∈ questPoolW) :=
  ⟨by decide, by decide,
    updateQuestData_regenerates questPoolW 3 (fun _ => 1/2) 1000000 2 86400000 0 691200000
      (by decide) (by decide) (fun _ => ⟨by norm_num, by norm_num⟩)⟩

/-- C6.  For a valid rarity index and a tier sample in `[0,1)`, `findValid`
draws only from the tier's members that are not blacklisted and, unless the
guild is an SB server, not SB-only; when every member is excluded it returns
the empty-string sentinel (a `some`, not an error); otherwise it returns the
candidate at index `⌊r·n⌋`, whose preimage in the random source is the
interval `[i/n, (i+1)/n)` — a uniform choice over the `n` candidates. -/
theorem findValid_filters_and_uniform (config : BotConfig) (guildData : Option GuildData)
    (rarityIndex : ℕ) (rarity : RarityConfig) (r : ℚ)
    (hidx : config.rarityConfigs[rarityIndex]? = some rarity) (h0 : 0 ≤ r) (h1 : r < 1) :
    (∀ boarID, boarID ∈ validBoars config guildData rarity ↔
      boarID ∈ rarity.boars ∧ (config.boarItemConfigs boarID).blacklisted = false ∧
        ((config.boarItemConfigs boarID).isSB = true → guildSBServer guildData = true)) ∧
    (validBoars config guildData rarity = [] →
      findValid rarityIndex guildData config r = some "") ∧
    (validBoars config guildData rarity ≠ [] →
      ∃ i : ℕ, ∃ hi : i < (validBoars config guildData rarity).length,
        findValid rarityIndex guildData config r =
          some ((validBoars config guildData rarity).get ⟨i, hi⟩) ∧
        (i : ℚ) / (validBoars config guildData rarity).length ≤ r ∧
        r < ((i : ℚ) + 1) / (validBoars config guildData rarity).length) := by
  refine ⟨?_, ?_, ?_⟩
  · intro boarID
    simp only [validBoars, List.mem_filter]
    cases hbl : (config.boarItemConfigs boarID).blacklisted <;>
      cases hsb : (config.boarItemConfigs boarID).isSB <;>
        cases hg : guildSBServer guildData <;>
          simp [hbl, hsb, hg]
  · intro hempty
    rw [findValid, hidx]
    simp [hempty]
  · intro hne
    have hn : 0 < (validBoars config guildData rarity).length := List.length_pos.mpr hne
    refine ⟨Int.toNat ⌊r * (validBoars config guildData rarity).length⌋,
      floorIndex_lt r _ h0 h1 hn, ?_,
      (floorIndex_bounds r _ h0 hn).1, (floorIndex_bounds r _ h0 hn).2⟩
    rw [findValid, hidx]
    simp only [Option.map_some']
    rw [if_neg (by omega)]
    rw [List.getElem?_eq_getElem (floorIndex_lt r _ h0 h1 hn)]
    simp [List.get_eq_getElem]

/-- C6 witness: the statement evaluated on the two-tier sample configuration
with an absent guild, rarity index 0, and sample 1/2. -/
theorem findValid_filters_and_uniform_witness :
    (twoTierConfig.rarityConfigs[0]? = some commonRarity) ∧ ((0:ℚ) ≤ 1/2) ∧ ((1:ℚ)/2 < 1) ∧
    ((∀ boarID, boarID ∈ validBoars twoTierConfig none commonRarity ↔
        boarID ∈ commonRarity.boars ∧
          (twoTierConfig.boarItemConfigs boarID).blacklisted = false ∧
          ((twoTierConfig.boarItemConfigs boarID).isSB = true → guildSBServer none = true)) ∧
      (validBoars twoTierConfig none commonRarity = [] →
        findValid 0 none twoTierConfig (1/2) = some "") ∧
      (validBoars twoTierConfig none commonRarity ≠ [] →
        ∃ i : ℕ, ∃ hi : i < (validBoars twoTierConfig none commonRarity).length,
          findValid 0 none twoTierConfig (1/2) =
            some ((validBoars twoTierConfig none commonRarity).get ⟨i, hi⟩) ∧
          (i : ℚ) / (validBoars twoTierConfig none commonRarity).length ≤ 1/2 ∧
          (1:ℚ)/2 < ((i : ℚ) + 1) / (validBoars twoTierConfig none commonRarity).length)) :=
  ⟨rfl, by norm_num, by norm_num,
    findValid_filters_and_uniform twoTierConfig none 0 commonRarity (1/2) rfl (by norm_num)
      (by norm_num)⟩

/-- C8.  If no board of the dataset holds an entry with value ≤ 0, then
after `updateLeaderboardData` (which on every metric upserts only a value
> 0 and otherwise deletes the user's entry) and after
`removeLeaderboardUser` (which only deletes entries) no board holds an entry
with value ≤ 0. -/
theorem leaderboards_never_nonpositive (boardsData : LeaderboardsData)
    (boarUser : BoarUserProfile) (config : BotConfig) (userID : String)
    (h : leaderboardsAllPos boardsData) :
    leaderboardsAllPos (updateLeaderboardData boardsData boarUser config) ∧
    leaderboardsAllPos (removeLeaderboardUser boardsData userID) := by
  obtain ⟨h1, h2, h3, h4, h5, h6, h7, h8, h9, h10⟩ := h
  constructor
  · exact ⟨boardAllPos_upsert _ _ _ _ h1, boardAllPos_upsert _ _ _ _ h2,
      boardAllPos_upsert _ _ _ _ h3, boardAllPos_upsert _ _ _ _ h4,
      boardAllPos_upsert _ _ _ _ h5, boardAllPos_upsert _ _ _ _ h6,
      boardAllPos_upsert _ _ _ _ h7, boardAllPos_upsert _ _ _ _ h8,
      boardAllPos_upsert _ _ _ _ h9, boardAllPos_upsert _ _ _ _ h10⟩
  · exact ⟨boardAllPos_removeStep _ _ h1, boardAllPos_removeStep _ _ h2,
      boardAllPos_removeStep _ _ h3, h4,
      boardAllPos_removeStep _ _ h5, boardAllPos_removeStep _ _ h6,
      boardAllPos_removeStep _ _ h7, boardAllPos_removeStep _ _ h8,
      boardAllPos_removeStep _ _ h9, h10⟩

/-- C8 witness: the invariant evaluated on the all-positive sample dataset,
the sample profile, and removal of `u1`. -/
theorem leaderboards_never_nonpositive_witness :
    leaderboardsAllPos sampleBoards ∧
    (leaderboardsAllPos (updateLeaderboardData sampleBoards sampleProfile twoTierConfig) ∧
      leaderboardsAllPos (removeLeaderboardUser sampleBoards "u1")) :=
  ⟨by simp only [leaderboardsAllPos, boardAllPos]; decide,
    leaderboards_never_nonpositive sampleBoards sampleProfile twoTierConfig "u1"
      (by simp only [leaderboardsAllPos, boardAllPos]; decide)⟩

/-- C9 counterexample.  When the stored leaderboard document is missing, the
load inside `updateLeaderboardData` synthesizes the default dataset and
persists it immediately, so the operation saves twice — not exactly once. -/
theorem updateLeaderboardSaves_two_saves_when_missing :
    (updateLeaderboardSaves none emptyLeaderboards sampleProfile twoTierConfig).length = 2 :=
  rfl

/-- C9 amended.  When the stored leaderboard document exists,
`updateLeaderboardData` performs exactly one save — of the dataset with all
metrics recomputed — and no save precedes it, so a failure before that save
leaves the persisted document unchanged; when the document is missing, the
load step additionally persists the freshly synthesized default first.  In
neither case is a partially updated dataset saved. -/
theorem updateLeaderboardData_single_save (stored : Option LeaderboardsData)
    (fresh : LeaderboardsData) (boarUser : BoarUserProfile) (config : BotConfig)
    (b : LeaderboardsData) :
    (stored = some b →
      updateLeaderboardSaves stored fresh boarUser config =
        [updateLeaderboardData b boarUser config]) ∧
    (stored = none →
      updateLeaderboardSaves stored fresh boarUser config =
        [fresh, updateLeaderboardData fresh boarUser config]) := by
  constructor
  · rintro rfl
    rfl
  · rintro rfl
    rfl

/-- C9 witness: with the sample dataset stored, the save trace is exactly
the single fully recomputed dataset. -/
theorem updateLeaderboardData_single_save_witness :
    updateLeaderboardSaves (some sampleBoards) emptyLeaderboards sampleProfile twoTierConfig =
      [updateLeaderboardData sampleBoards sampleProfile twoTierConfig] :=
  (updateLeaderboardData_single_save (some sampleBoards) emptyLeaderboards sampleProfile
    twoTierConfig sampleBoards).1 rfl

/-- C10.  `findValid` with an absent guild context behaves exactly like
`findValid` with a guild whose `isSBServer` flag is false: the optional chain
`guildData?.isSBServer` evaluates falsy in both cases, so SB-only items are
excluded identically. -/
theorem findValid_absent_guild_like_non_sb (rarityIndex : ℕ) (config : BotConfig) (r : ℚ) :
    findValid rarityIndex none config r = findValid rarityIndex (some ⟨false⟩) config r := rfl

end BoarBot
